import Mathlib

/-!
Shallow embedding of the poll2 run controller (`poll2_core.cpp` of paass-lc),
covering the FIFO drain cycle (`Poll::ReadFIFO`), the output-file writer
(`Poll::write_data`, `Poll::OpenOutputFile`, `Poll::CloseOutputFile`), the
chunked network broadcast (`Poll::broadcast_data`) and the ranged command
argument splitter (`Poll::SplitParameterArgs`).

Hardware words are 32-bit unsigned integers, modelled as `Nat`; every bit
field extraction masks the word, so no value can escape its field range.
C++ unsigned wrap-around is made explicit with `% 2 ^ 32` (or `% 2 ^ 64` for
`size_t`) exactly at the operations where the source performs 32-bit (or
64-bit) arithmetic.
-/

namespace Poll

/-- Data word of the Pixie16 hardware (`Pixie16::word_t`, a 32-bit unsigned
integer). -/
abbrev Word := Nat

/-- Maximum allowable output file size in bytes (`MAX_FILE_SIZE`,
`2147483648ll` in `poll2_core.cpp`). -/
def MAX_FILE_SIZE : Nat := 2147483648

/-- Modelled from the spec: `EXTERNAL_FIFO_LENGTH` (the spec's `FIFO_MAX`) is
defined in `PixieInterface.h`, which is not among the sources here; the spec
fixes the hardware FIFO capacity to 131072 words. -/
def EXTERNAL_FIFO_LENGTH : Nat := 131072

/-- Slot number encoded in the first word of an event:
`(fifoData[parseWords] & 0xF0) >> 4`. -/
def slotRead (w : Word) : Nat := (w &&& 0xF0) >>> 4

/-- Channel number encoded in the first word of an event:
`fifoData[parseWords] & 0xF`. -/
def chanRead (w : Word) : Nat := w &&& 0xF

/-- Event size in words encoded in the first word of an event:
`(fifoData[parseWords] & 0x7FFE2000) >> 17`. -/
def eventSize (w : Word) : Nat := (w &&& 0x7FFE2000) >>> 17

/-- Virtual channel flag of an event word:
`(fifoData[parseWords] & 0x20000000) != 0`. -/
def virtualChannel (w : Word) : Bool := decide (w &&& 0x20000000 ≠ 0)

/-- Slot validation of `Poll::ReadFIFO`: `slotRead != slotExpected` sets
`had_error`. -/
def slotCheckFails (slotExpected : Nat) (w : Word) : Bool :=
  decide (slotRead w ≠ slotExpected)

/-- Channel validation of `Poll::ReadFIFO`: `chanRead < 0 || chanRead > 15`
sets `had_error`. `chanRead` is unsigned, so the first disjunct is kept
verbatim on `Nat`. -/
def chanCheckFails (w : Word) : Bool :=
  decide (chanRead w < 0) || decide (chanRead w > 15)

/-- Event-size validation of `Poll::ReadFIFO`: `eventSize == 0` sets
`had_error`. -/
def sizeCheckFails (w : Word) : Bool := decide (eventSize w = 0)

/-- Combined per-event validation: the parse loop of `Poll::ReadFIFO` breaks
out as soon as `had_error` has been set by any of the three checks. -/
def wordCheckFails (slotExpected : Nat) (w : Word) : Bool :=
  slotCheckFails slotExpected w || chanCheckFails w || sizeCheckFails w

/-- Outcome of the event-parsing `while` loop of `Poll::ReadFIFO` over one
module's payload. `clean`: the cursor reached the end exactly. `partialEvt p
ev`: the last event started at `p` with declared size `ev` and ran past the
end (a hanging event). `corrupt p prevEv`: validation failed at cursor `p`,
with `prevEv` the size of the last successfully parsed event (`prevEventSize`,
0 when there was none). -/
inductive ParseResult where
  | clean : ParseResult
  | partialEvt (startPos evSize : Nat) : ParseResult
  | corrupt (errPos prevEvSize : Nat) : ParseResult
deriving DecidableEq

/-- Event-parsing loop of `Poll::ReadFIFO` (`while (parseWords < dataWords +
nWords[mod]) ...`), with the cursor `p` relative to the start of the module's
payload `ws`. The loop advances the cursor by at least one word per
iteration (a zero `eventSize` aborts the parse), so `ws.length + 1` units of
fuel always suffice; the fuel argument only makes the recursion structural,
and `parseLoop_congr` shows the result does not depend on it. -/
def parseLoop (slotExpected : Nat) (ws : List Word) : Nat → Nat → Nat → ParseResult
  | 0, p, prevEv => .corrupt p prevEv
  | fuel + 1, p, prevEv =>
    if h : p < ws.length then
      let w := ws.get ⟨p, h⟩
      if wordCheckFails slotExpected w then .corrupt p prevEv
      else if p + eventSize w < ws.length then
        parseLoop slotExpected ws fuel (p + eventSize w) (eventSize w)
      else if p + eventSize w = ws.length then .clean
      else .partialEvt p (eventSize w)
    else .clean

/-- Parse of one module's payload, starting at cursor 0 with `prevEventSize =
0` as in `Poll::ReadFIFO`. -/
def parseEvents (slotExpected : Nat) (ws : List Word) : ParseResult :=
  parseLoop slotExpected ws (ws.length + 1) 0 0

/-- Unsigned 64-bit subtraction (`size_t` arithmetic in the corruption
diagnostic of `Poll::ReadFIFO`). -/
def usub64 (a b : Nat) : Nat := (2 ^ 64 + a - b) % 2 ^ 64

/-- Diagnostic dump printed by `Poll::ReadFIFO` when parsing indicates
corrupted data: the event prior to the parsing error, the event at the
parsing error (truncated at 50 words), and the event after the parsing
error. `followingCount` is the exact `size_t` trip count `outputSize` of the
following-event print loop: when the offending event's declared size runs
past the payload end, the clamp `dataWords + nWords[mod] - (parseWords +
eventSize)` underflows and `followingCount` is close to `2^64`, so the
source's loop reads far past the end of `fifoData` (out of bounds) and the
dump never completes. `following` records only the in-payload words that
loop touches; words past the payload are unspecified (or unmapped) memory. -/
structure CorruptDump where
  prevEvent : List Word
  offending : List Word
  followingCount : Nat
  following : List Word
deriving DecidableEq

/-- Construction of the corruption diagnostic of `Poll::ReadFIFO` from the
payload `ws`, the error cursor `p` and the size `prevEv` of the preceding
event. Word counts follow the source: the offending event prints
`min eventSize 50` words; the following event's loop runs `outputSize`
times, where `outputSize` is the declared size of the next event,
overridden to 50 when the offending `eventSize > 50`, and replaced by the
`size_t` difference to the payload end when it would reach past it — a
difference that underflows whenever the offending event itself overruns
the payload. -/
def corruptDump (ws : List Word) (p prevEv : Nat) : CorruptDump :=
  let ev := eventSize (ws.getD p 0)
  let offSize := if ev > 50 then 50 else ev
  let nextEv := if p + ev < ws.length then eventSize (ws.getD (p + ev) 0) else 0
  let outSize0 := if ev > 50 then 50 else nextEv
  let outSize :=
    if p + ev + outSize0 ≥ ws.length then usub64 ws.length (p + ev) else outSize0
  { prevEvent := (ws.drop (p - prevEv)).take prevEv
    offending := (ws.drop p).take offSize
    followingCount := outSize
    following := (ws.drop (p + ev)).take outSize }

/-- Path taken by `Poll::ReadFIFO` for one module, decided from the module's
reported FIFO word count: `nWords[mod] < MIN_FIFO_READ` writes an empty
two-word record, the (dead) `else if (nWords[mod] < 0)` branch would do the
same with a warning, `nWords[mod] >= EXTERNAL_FIFO_LENGTH` is the full-FIFO
fatal, and otherwise the module is read and parsed. -/
inductive FifoPath where
  | emptyRecord : FifoPath
  | negativeWarn : FifoPath
  | fullFatal : FifoPath
  | readAndParse : FifoPath
deriving DecidableEq

/-- Branch structure of `Poll::ReadFIFO` on the reported word count. The
count is stored in a `std::vector<Pixie16::word_t>` of unsigned words, so the
`nWords[mod] < 0` comparison is on an unsigned value. -/
def fifoPathFor (minFifoRead count : Nat) : FifoPath :=
  if count < minFifoRead then .emptyRecord
  else if count < 0 then .negativeWarn
  else if count ≥ EXTERNAL_FIFO_LENGTH then .fullFatal
  else .readAndParse

/-- Cast performed by `nWords[mod] = (unsigned int)pif_->CheckFIFOWords(mod)`
when the interface reports a (possibly negative) signed count. -/
def storeFifoCount (c : Int) : Nat := (c % (2 : Int) ^ 32).toNat

/-- Per-module drain state: `fifo` are the words pending on the hardware side
(not yet returned by `ReadFIFOWords`), `carry` is `partialEvents[mod]`, the
trailing event fragment held back from the previous spill. -/
structure ModState where
  fifo : List Word
  carry : List Word
deriving DecidableEq

/-- Fatal outcomes of a drain cycle: a full hardware FIFO, or corrupted data
together with the diagnostic dump. Each sets `had_error` and `do_stop_acq`
and makes `Poll::ReadFIFO` return before any data is written or broadcast. -/
inductive Fatal where
  | fullFifo : Fatal
  | corruptData : CorruptDump → Fatal
deriving DecidableEq

/-- Drain of a single module inside the per-module loop of `Poll::ReadFIFO`.
`arrived` are the words that reached the hardware FIFO since the module was
last drained, so the reported count is `(st.fifo ++ arrived).length`. On
success the result is the module's section of the spill buffer — the
backfilled size header `nWords[mod] + 2`, the module number, and the payload
— together with the new module state. The payload parsed is
`partialEvents[mod]` followed by the words read from the FIFO; a clean parse
clears the carry, a hanging event moves its read words back into the carry
and shortens the emitted section by the same count. -/
def drainStep (slotExpected minFifoRead mod : Nat) (st : ModState)
    (arrived : List Word) : Except Fatal (List Word × ModState) :=
  let f := st.fifo ++ arrived
  match fifoPathFor minFifoRead f.length with
  | .emptyRecord => .ok ([2, mod], { fifo := f, carry := st.carry })
  | .negativeWarn => .ok ([2, mod], { fifo := f, carry := st.carry })
  | .fullFatal => .error .fullFifo
  | .readAndParse =>
    let payload := st.carry ++ f
    match parseEvents slotExpected payload with
    | .clean =>
        .ok ((payload.length + 2) :: mod :: payload, { fifo := [], carry := [] })
    | .partialEvt p0 _ =>
        .ok ((p0 + 2) :: mod :: payload.take p0,
             { fifo := [], carry := payload.drop p0 })
    | .corrupt p prevEv => .error (.corruptData (corruptDump payload p prevEv))

/-- Successive drains of one fixed module over a run: each element of the
list is the batch of words arriving at that module's hardware FIFO before the
next drain cycle. Returns the module's emitted sections and its final state,
or the first fatal outcome. -/
def drainRun (slotExpected minFifoRead mod : Nat) (st : ModState) :
    List (List Word) → Except Fatal (List (List Word) × ModState)
  | [] => .ok ([], st)
  | a :: rest =>
    match drainStep slotExpected minFifoRead mod st a with
    | .error e => .error e
    | .ok (sec, st') =>
      match drainRun slotExpected minFifoRead mod st' rest with
      | .error e => .error e
      | .ok (secs, stF) => .ok (sec :: secs, stF)

/-- Loop over the modules of one drain cycle of `Poll::ReadFIFO` (`for mod =
0 .. n_cards`), module `mod` carrying state and newly arrived words; slots
come from `GetSlotNumber(0, mod)`. Returns the per-module sections of the
spill buffer, or the first fatal outcome. -/
def drainSpill (slots : Nat → Nat) (minFifoRead : Nat) :
    Nat → List (ModState × List Word) → Except Fatal (List (List Word))
  | _, [] => .ok []
  | mod, (st, a) :: rest =>
    match drainStep (slots mod) minFifoRead mod st a with
    | .error e => .error e
    | .ok (sec, _) =>
      match drainSpill slots minFifoRead (mod + 1) rest with
      | .error e => .error e
      | .ok secs => .ok (sec :: secs)

/-- Error flags of the run controller set by the drain cycle. -/
structure PollFlags where
  had_error : Bool
  do_stop_acq : Bool
deriving DecidableEq

/-- Emission step at the end of `Poll::ReadFIFO`: on any fatal outcome both
error flags are set and the function returns before `write_data` and
`broadcast_data`, so nothing is emitted; otherwise the concatenated module
sections are handed to `write_data` (when recording) and `broadcast_data`. -/
def readFIFOEmit (slots : Nat → Nat) (minFifoRead : Nat)
    (mods : List (ModState × List Word)) : PollFlags × Option (List Word) :=
  match drainSpill slots minFifoRead 0 mods with
  | .error _ => ({ had_error := true, do_stop_acq := true }, none)
  | .ok secs => ({ had_error := false, do_stop_acq := false }, some secs.flatten)

/-- State of the output file as seen by `Poll::write_data`: whether
`output_file.IsOpen()` and the current size `output_file.GetFilesize()` in
bytes. -/
structure FileState where
  isOpen : Bool
  size : Nat
deriving DecidableEq

/-- File operations performed by `Poll::write_data`, in order. -/
inductive FileOp where
  | closeWithContinue : FileOp
  | openWithContinue : FileOp
  | writeWords (n : Nat) : FileOp
deriving DecidableEq

/-- Embedding of `Poll::write_data`. Without an open file it sets
`do_stop_acq` and `had_error` and writes nothing. Otherwise, when
`current_filesize + (4*nWords + 65552)` exceeds `MAX_FILE_SIZE` it first
closes and reopens with `continueRun = true`; `4*nWords + 65552` is computed
in 32-bit unsigned arithmetic before widening to `std::streampos`. The write
itself appends `4 * nWords` bytes (modelled from the spec: `OutputFile::Write`
is outside these sources; the spec specifies `Write(bytes, wordCount)`
appending the words). `freshSize` models the size of a freshly reopened
sub-file, since `OpenNewFile` is likewise outside these sources. -/
def write_data (freshSize : Nat) (st : FileState) (nWords : Nat) :
    FileState × List FileOp × PollFlags :=
  if st.isOpen = false then
    (st, [], { had_error := true, do_stop_acq := true })
  else if MAX_FILE_SIZE < st.size + (4 * nWords + 65552) % 2 ^ 32 then
    ({ isOpen := true, size := freshSize + 4 * nWords },
     [.closeWithContinue, .openWithContinue, .writeWords nWords],
     { had_error := false, do_stop_acq := false })
  else
    ({ isOpen := true, size := st.size + 4 * nWords },
     [.writeWords nWords],
     { had_error := false, do_stop_acq := false })

/-- Maximum chunk size of the shm broadcast in words (`maxShmSizeL` in
`Poll::broadcast_data`). -/
def maxShmSizeL : Nat := 4050

/-- Datagram sent by `Poll::broadcast_data` in shm mode: the two 4-byte
header words `net_chunk` and `num_net_chunks`, then the payload words. -/
structure Datagram where
  chunkIndex : Nat
  totalChunks : Nat
  payload : List Word
deriving DecidableEq

/-- Chunk count computed by `Poll::broadcast_data`: `nWords / maxShmSizeL`,
incremented when the remainder is nonzero. -/
def numNetChunks (nWords : Nat) : Nat :=
  nWords / maxShmSizeL + (if nWords % maxShmSizeL ≠ 0 then 1 else 0)

/-- Broadcast loop of `Poll::broadcast_data` (`while (words_bcast < nWords)`):
while more than `maxShmSizeL` words remain, a full chunk is sent; otherwise
the remainder forms the final chunk. `chunkIdx` is `net_chunk`, starting
at 1. -/
def sendChunks (totalChunks chunkIdx : Nat) (ws : List Word) : List Datagram :=
  if ws.isEmpty then []
  else if maxShmSizeL < ws.length then
    { chunkIndex := chunkIdx, totalChunks := totalChunks,
      payload := ws.take maxShmSizeL }
      :: sendChunks totalChunks (chunkIdx + 1) (ws.drop maxShmSizeL)
  else [{ chunkIndex := chunkIdx, totalChunks := totalChunks, payload := ws }]
termination_by ws.length
decreasing_by simpa using Nat.sub_lt (by omega) (by simp [maxShmSizeL])

/-- Embedding of the shm-mode branch of `Poll::broadcast_data`: the spill is
split into datagrams of at most `maxShmSizeL` payload words. -/
def broadcast_data (ws : List Word) : List Datagram :=
  sendChunks (numNetChunks ws.length) 1 ws

/-- Character filter of `Poll::SplitParameterArgs`:
`arg.find_first_not_of("-0123456789:")` rejects the argument when any other
character occurs. -/
def allowedChar (c : Char) : Bool :=
  c = '-' || c.isDigit || c = ':'

/-- Value of the longest leading digit run, accumulator style (the digit
consumption of `std::stoi` after the optional sign). -/
def digitsPrefixVal (acc : Nat) : List Char → Nat
  | c :: rest => if c.isDigit then digitsPrefixVal (acc * 10 + (c.toNat - 48)) rest else acc
  | [] => acc

/-- Embedding of `std::stoi` as used by `Poll::SplitParameterArgs`: an
optional sign followed by at least one decimal digit; further characters are
ignored; `none` models the `std::invalid_argument` exception. Leading
whitespace skipping and the `std::out_of_range` overflow exception (which the
source does not catch) are not modelled; the arguments here have already
passed the character filter, whose alphabet contains neither whitespace
nor `+`. -/
def stoiOpt : List Char → Option Int
  | [] => none
  | '-' :: rest =>
    match rest with
    | c :: _ => if c.isDigit then some (-(digitsPrefixVal 0 rest : Int)) else none
    | [] => none
  | '+' :: rest =>
    match rest with
    | c :: _ => if c.isDigit then some ((digitsPrefixVal 0 rest : Int)) else none
    | [] => none
  | c :: rest => if c.isDigit then some ((digitsPrefixVal 0 (c :: rest) : Int)) else none

/-- Position of the first `:` in the argument (`arg.find(':')`; `none` models
`std::string::npos`). -/
def findColon : List Char → Option Nat
  | [] => none
  | c :: rest => if c = ':' then some 0 else (findColon rest).map (· + 1)

/-- Embedding of `Poll::SplitParameterArgs`. Returns `some (start, stop)`
when the function returns `true`, `none` when it returns `false`. The
bounds check `start < 0 || stop < 0 || start > stop` sits inside the branch
taken when the delimiter was found; the single-value branch only copies
`start` into `stop`. -/
def SplitParameterArgs (arg : List Char) : Option (Int × Int) :=
  if (arg.all allowedChar) = false then none
  else
    match findColon arg with
    | some d =>
      match stoiOpt (arg.take d) with
      | none => none
      | some start =>
        match stoiOpt (arg.drop (d + 1)) with
        | none => none
        | some stop =>
          if start < 0 ∨ stop < 0 ∨ start > stop then none else some (start, stop)
    | none =>
      match stoiOpt arg with
      | none => none
      | some start => some (start, start)

/-- Flag state relevant to `Poll::OpenOutputFile` and
`Poll::CloseOutputFile`: the controller's `file_open` and `had_error` and
`record_data` flags, and whether `output_file.IsOpen()`. -/
structure OutState where
  file_open : Bool
  out_isOpen : Bool
  had_error : Bool
  record_data : Bool
deriving DecidableEq

/-- Embedding of `Poll::CloseOutputFile` (result `Bool` is the return value).
With no open file it warns, clears `file_open` and returns `false`;
otherwise it closes the file, clears `file_open` and returns `true`. Stats
clearing, the `$CLOSE_FILE` message and run-number advance have no bearing on
the flags modelled here. -/
def CloseOutputFile (st : OutState) : OutState × Bool :=
  if st.out_isOpen = false then ({ st with file_open := false }, false)
  else ({ st with out_isOpen := false, file_open := false }, true)

/-- Embedding of `Poll::OpenOutputFile` (result `Bool` is the return value).
With a file already open it calls `CloseOutputFile`, sets `had_error`, clears
`record_data` and returns `false`. `openNewFileSucceeds` models the result
of `output_file.OpenNewFile` (outside these sources): on failure the same
flags are set; on success `file_open` is set. -/
def OpenOutputFile (openNewFileSucceeds : Bool) (st : OutState) :
    OutState × Bool :=
  if st.out_isOpen then
    let st1 := (CloseOutputFile st).1
    ({ st1 with had_error := true, record_data := false }, false)
  else if openNewFileSucceeds = false then
    ({ st with had_error := true, record_data := false }, false)
  else
    ({ st with out_isOpen := true, file_open := true }, true)

/-! Helper lemmas about the event parse loop. -/

/-- Word validation that passes has a nonzero event size. -/
theorem eventSize_pos_of_check {slot : Nat} {w : Word}
    (h : wordCheckFails slot w = false) : 0 < eventSize w := by
  simp only [wordCheckFails, sizeCheckFails, Bool.or_eq_false_iff,
    decide_eq_false_iff_not] at h
  omega

/-- Variant of `eventSize_pos_of_check` matching the negated hypothesis shape
produced by `split`. -/
theorem eventSize_pos_of_not_check {slot : Nat} {w : Word}
    (h : ¬(wordCheckFails slot w = true)) : 0 < eventSize w :=
  eventSize_pos_of_check (by simpa using h)

/-- Fuel irrelevance of `parseLoop`: as long as the fuel exceeds the number
of words left, the result does not depend on it — the fuel is only a
totality device and the fuel-exhaustion branch is unreachable from
`parseEvents`. -/
theorem parseLoop_congr {slot : Nat} {ws : List Word} :
    ∀ {fuel fuel' p pe : Nat}, ws.length - p < fuel → ws.length - p < fuel' →
      parseLoop slot ws fuel p pe = parseLoop slot ws fuel' p pe := by
  intro fuel
  induction fuel with
  | zero => intro fuel' p pe h; omega
  | succ f ih =>
    intro fuel' p pe h h'
    match fuel', h' with
    | f' + 1, _ =>
      simp only [parseLoop]
      split
      case isTrue hp =>
        split
        case isTrue => rfl
        case isFalse hok =>
          split
          case isTrue h2 =>
            exact ih (by have := eventSize_pos_of_not_check hok; omega)
              (by have := eventSize_pos_of_not_check hok; omega)
          case isFalse => rfl
      case isFalse => rfl

/-- Position bounds of a hanging event: the last event starts inside the
payload and its declared size runs past the end. -/
theorem parseLoop_partial {slot : Nat} {ws : List Word} :
    ∀ {fuel p pe p0 ev : Nat},
      parseLoop slot ws fuel p pe = .partialEvt p0 ev →
      p0 < ws.length ∧ ws.length < p0 + ev := by
  intro fuel
  induction fuel with
  | zero => intro p pe p0 ev h; simp [parseLoop] at h
  | succ f ih =>
    intro p pe p0 ev h
    simp only [parseLoop] at h
    split at h
    case isTrue hp =>
      split at h
      case isTrue => simp at h
      case isFalse hok =>
        split at h
        case isTrue h2 => exact ih h
        case isFalse h2 =>
          split at h
          case isTrue => simp at h
          case isFalse h3 =>
            simp only [ParseResult.partialEvt.injEq] at h
            omega
    case isFalse => simp at h

/-- Position bound of a corruption stop: with sufficient fuel, the parse
reports corruption only at a cursor strictly inside the payload, i.e. only
when it stopped before consuming all words. -/
theorem parseLoop_corrupt {slot : Nat} {ws : List Word} :
    ∀ {fuel p pe q r : Nat}, ws.length - p < fuel →
      parseLoop slot ws fuel p pe = .corrupt q r → q < ws.length := by
  intro fuel
  induction fuel with
  | zero => intro p pe q r h; omega
  | succ f ih =>
    intro p pe q r hfuel h
    simp only [parseLoop] at h
    split at h
    case isTrue hp =>
      split at h
      case isTrue =>
        simp only [ParseResult.corrupt.injEq] at h
        omega
      case isFalse hok =>
        split at h
        case isTrue h2 =>
          exact ih (by have := eventSize_pos_of_not_check hok; omega) h
        case isFalse h2 =>
          split at h
          · simp at h
          · simp at h
    case isFalse => simp at h

/-- Bound transfer to `parseEvents`, which runs with fuel `ws.length + 1`. -/
theorem parseEvents_partial {slot : Nat} {ws : List Word} {p0 ev : Nat}
    (h : parseEvents slot ws = .partialEvt p0 ev) :
    p0 < ws.length ∧ ws.length < p0 + ev :=
  parseLoop_partial h

/-- Bound transfer to `parseEvents` for the corruption outcome. -/
theorem parseEvents_corrupt {slot : Nat} {ws : List Word} {q r : Nat}
    (h : parseEvents slot ws = .corrupt q r) : q < ws.length :=
  parseLoop_corrupt (by omega) h

/-! Helper lemmas about the per-module drain step. -/

/-- Stream accounting of one successful drain step: the emitted payload
(section minus its two header words) followed by the new carry and the words
still pending equals the old carry and pending words followed by the newly
arrived words. Nothing is lost and nothing is duplicated. -/
theorem drainStep_ok_stream {slot minRead mod : Nat} {st : ModState}
    {a sec : List Word} {st' : ModState}
    (h : drainStep slot minRead mod st a = .ok (sec, st')) :
    sec.drop 2 ++ (st'.carry ++ st'.fifo) = (st.carry ++ st.fifo) ++ a := by
  simp only [drainStep] at h
  split at h
  case h_1 =>
    simp only [Except.ok.injEq, Prod.mk.injEq] at h
    obtain ⟨h1, h2⟩ := h
    subst h1; subst h2
    simp [List.append_assoc]
  case h_2 =>
    simp only [Except.ok.injEq, Prod.mk.injEq] at h
    obtain ⟨h1, h2⟩ := h
    subst h1; subst h2
    simp [List.append_assoc]
  case h_3 => simp at h
  case h_4 =>
    split at h
    case h_1 =>
      simp only [Except.ok.injEq, Prod.mk.injEq] at h
      obtain ⟨h1, h2⟩ := h
      subst h1; subst h2
      simp [List.append_assoc]
    case h_2 =>
      simp only [Except.ok.injEq, Prod.mk.injEq] at h
      obtain ⟨h1, h2⟩ := h
      subst h1; subst h2
      simp [List.take_append_drop]
    case h_3 => simp at h

/-- Header accounting of one successful drain step: the first word of the
emitted section (backfilled by `fifoData[dataWords - 2] = nWords[mod] + 2`)
equals the section's length. -/
theorem drainStep_ok_headI {slot minRead mod : Nat} {st : ModState}
    {a sec : List Word} {st' : ModState}
    (h : drainStep slot minRead mod st a = .ok (sec, st')) :
    sec.headI = sec.length := by
  simp only [drainStep] at h
  split at h
  case h_1 =>
    simp only [Except.ok.injEq, Prod.mk.injEq] at h
    obtain ⟨h1, _⟩ := h
    subst h1; rfl
  case h_2 =>
    simp only [Except.ok.injEq, Prod.mk.injEq] at h
    obtain ⟨h1, _⟩ := h
    subst h1; rfl
  case h_3 => simp at h
  case h_4 =>
    split at h
    case h_1 =>
      simp only [Except.ok.injEq, Prod.mk.injEq] at h
      obtain ⟨h1, _⟩ := h
      subst h1; simp [List.headI]
    case h_2 hparse =>
      simp only [Except.ok.injEq, Prod.mk.injEq] at h
      obtain ⟨h1, _⟩ := h
      subst h1
      have hb := parseEvents_partial hparse
      show _ + 2 = ((_ :: _ :: _ : List Word)).length
      simp only [List.length_cons, List.length_take]
      omega
    case h_3 => simp at h

/-- The drain of a module whose reported word count is below the read
threshold emits the empty two-word record and leaves its state untouched
except that the arrived words stay pending. -/
theorem drainStep_below_min {slot minRead mod : Nat} {st : ModState}
    {a : List Word} (h : (st.fifo ++ a).length < minRead) :
    drainStep slot minRead mod st a
      = .ok ([2, mod], { fifo := st.fifo ++ a, carry := st.carry }) := by
  have hp : fifoPathFor minRead (st.fifo ++ a).length = .emptyRecord := by
    unfold fifoPathFor
    rw [if_pos h]
  simp only [drainStep, hp]

/-- CLAIM C1. For every module, the trailing-event fragment saved by one
drain is exactly what sits at the front of that module's parsed payload on
its next actual drain, after which `partialEvents[mod]` holds only the new
fragment: every drained section is `(k+2) :: mod :: payload.take k` with
`payload = carry ++ pending ++ arrived` and the new carry is `payload.drop k`.
Consequently, over any fatal-free run, the concatenation of the module's
emitted spill payloads followed by the final carry and pending words
reproduces the module's hardware word stream with zero loss and zero
duplication. -/
theorem c1_partial_event_carry (slot minRead mod : Nat) :
    (∀ (st : ModState) (a sec : List Word) (st' : ModState),
        drainStep slot minRead mod st a = .ok (sec, st') →
        fifoPathFor minRead (st.fifo ++ a).length = .readAndParse →
        ∃ k, sec = (k + 2) :: mod :: (st.carry ++ (st.fifo ++ a)).take k
           ∧ st'.carry = (st.carry ++ (st.fifo ++ a)).drop k
           ∧ st'.fifo = [])
  ∧ (∀ (st : ModState) (arrivals secs : List (List Word)) (stF : ModState),
        drainRun slot minRead mod st arrivals = .ok (secs, stF) →
        (secs.map fun s => s.drop 2).flatten ++ (stF.carry ++ stF.fifo)
          = (st.carry ++ st.fifo) ++ arrivals.flatten) := by
  constructor
  · intro st a sec st' h hpath
    simp only [drainStep, hpath] at h
    split at h
    case h_1 =>
      simp only [Except.ok.injEq, Prod.mk.injEq] at h
      obtain ⟨h1, h2⟩ := h
      subst h1; subst h2
      exact ⟨(st.carry ++ (st.fifo ++ a)).length,
        by simp [List.take_length, List.drop_length]⟩
    case h_2 =>
      simp only [Except.ok.injEq, Prod.mk.injEq] at h
      obtain ⟨h1, h2⟩ := h
      subst h1; subst h2
      exact ⟨_, rfl, rfl, rfl⟩
    case h_3 => simp at h
  · intro st arrivals
    induction arrivals generalizing st with
    | nil =>
      intro secs stF h
      simp only [drainRun, Except.ok.injEq, Prod.mk.injEq] at h
      obtain ⟨h1, h2⟩ := h
      subst h1; subst h2
      simp
    | cons a rest ih =>
      intro secs stF h
      simp only [drainRun] at h
      split at h
      case h_1 => simp at h
      case h_2 sec st1 hstep =>
        split at h
        case h_1 => simp at h
        case h_2 secs1 stF1 hrun =>
          simp only [Except.ok.injEq, Prod.mk.injEq] at h
          obtain ⟨h1, h2⟩ := h
          subst h1; subst h2
          have hIH := ih st1 secs1 stF1 hrun
          have hS := drainStep_ok_stream hstep
          have hS' := congrArg (fun l => l ++ rest.flatten) hS
          simp only [List.map_cons, List.flatten_cons, List.append_assoc] at *
          rw [hIH]
          exact hS'

/-- Helper for CLAIM C2: over any successfully drained spill, the total word
count equals the sum of the per-section backfilled headers, whatever the
starting module index. -/
theorem drainSpill_total (slots : Nat → Nat) (minRead : Nat) :
    ∀ (m0 : Nat) (mods : List (ModState × List Word)) (secs : List (List Word)),
      drainSpill slots minRead m0 mods = .ok secs →
      secs.flatten.length = (secs.map List.headI).sum := by
  intro m0 mods
  induction mods generalizing m0 with
  | nil =>
    intro secs h
    simp only [drainSpill, Except.ok.injEq] at h
    subst h; rfl
  | cons hd rest ih =>
    intro secs h
    simp only [drainSpill] at h
    split at h
    case h_1 => simp at h
    case h_2 sec st' hstep =>
      split at h
      case h_1 => simp at h
      case h_2 secs1 hrest =>
        simp only [Except.ok.injEq] at h
        subst h
        have h1 := drainStep_ok_headI hstep
        have h2 := ih (m0 + 1) secs1 hrest
        simp only [List.flatten_cons, List.length_append, List.map_cons,
          List.sum_cons, h2, h1]

/-- CLAIM C2. For every spill emitted by a drain cycle, the total word count
handed to `write_data` and `broadcast_data` equals the sum over the modules
of the backfilled first header word (`nWords[mod] + 2`) of each module
section, and every module whose reported count is below the minimum read
size contributes exactly the two-word record `{2, mod}`. -/
theorem c2_spill_word_total (slots : Nat → Nat) (minRead : Nat)
    (mods : List (ModState × List Word)) (secs : List (List Word))
    (h : drainSpill slots minRead 0 mods = .ok secs) :
    readFIFOEmit slots minRead mods
      = ({ had_error := false, do_stop_acq := false }, some secs.flatten)
  ∧ secs.flatten.length = (secs.map List.headI).sum
  ∧ (∀ (slot mod : Nat) (st : ModState) (a : List Word),
       (st.fifo ++ a).length < minRead →
       drainStep slot minRead mod st a
         = .ok ([2, mod], { fifo := st.fifo ++ a, carry := st.carry })) := by
  refine ⟨?_, drainSpill_total slots minRead 0 mods secs h, ?_⟩
  · simp only [readFIFOEmit, h]
  · intro slot mod st a hlt
    exact drainStep_below_min hlt

/-- CLAIM C3, counterexample. The claimed invariant "after any successful
write the file size never exceeds 2 GiB − 65552 bytes" fails on the code:
for a spill of 2^29 words the rollover fires, but the rollover check is not
re-applied to the freshly opened sub-file, so the write leaves the new file
at 2^31 bytes — above the claimed bound — even though the words were
written after a close/open pair. -/
theorem c3_counterexample :
    MAX_FILE_SIZE - 65552
      < ((write_data 0 { isOpen := true, size := 0 } 536870912).1).size
  ∧ FileOp.writeWords 536870912
      ∈ (write_data 0 { isOpen := true, size := 0 } 536870912).2.1 := by
  constructor
  · show (2147483648 : Nat) - 65552 < _
    norm_num [write_data, MAX_FILE_SIZE]
  · norm_num [write_data, MAX_FILE_SIZE]

/-- CLAIM C3, amended. For every call to `write_data` with an open output
file, when the current size plus `4 * nWords + 65552` exceeds 2 GiB the file
is closed with `continueRun = true` and reopened with `continueRun = true`
before the words are written, and otherwise the words are written directly;
provided a freshly reopened sub-file can hold the spill plus the EOF
reservation (`freshSize + 4 * nWords + 65552 ≤ 2 GiB`), the size after the
write never exceeds 2 GiB − 65552 bytes. -/
theorem c3_rollover_bound (freshSize : Nat) (st : FileState) (nWords : Nat)
    (hopen : st.isOpen = true)
    (hfit : freshSize + (4 * nWords + 65552) ≤ MAX_FILE_SIZE) :
    ((write_data freshSize st nWords).2.1
       = if MAX_FILE_SIZE < st.size + (4 * nWords + 65552) then
           [.closeWithContinue, .openWithContinue, .writeWords nWords]
         else [.writeWords nWords])
  ∧ ((write_data freshSize st nWords).1).size ≤ MAX_FILE_SIZE - 65552 := by
  have hnow : (4 * nWords + 65552) % 2 ^ 32 = 4 * nWords + 65552 := by
    have : MAX_FILE_SIZE < 2 ^ 32 := by norm_num [MAX_FILE_SIZE]
    exact Nat.mod_eq_of_lt (by omega)
  simp only [write_data, hopen, Bool.true_eq_false, if_false, hnow]
  have h65 : (65552 : Nat) ≤ MAX_FILE_SIZE := by norm_num [MAX_FILE_SIZE]
  by_cases hc : MAX_FILE_SIZE < st.size + (4 * nWords + 65552)
  · simp only [if_pos hc]
    refine ⟨trivial, ?_⟩
    dsimp only
    omega
  · simp only [if_neg hc]
    refine ⟨trivial, ?_⟩
    dsimp only
    omega

/-- CLAIM C5. A module whose reported FIFO word count reaches
`EXTERNAL_FIFO_LENGTH` makes the drain step fail with the full-FIFO fatal (so
the cycle sets `had_error` and `do_stop_acq` and returns), any fatal drain
aborts the cycle with both flags set and nothing emitted, and a count
strictly below `EXTERNAL_FIFO_LENGTH` never produces the full-FIFO fatal. -/
theorem c5_full_fifo_fatal (slot minRead mod : Nat)
    (hmr : minRead ≤ EXTERNAL_FIFO_LENGTH) :
    (∀ (st : ModState) (a : List Word),
       EXTERNAL_FIFO_LENGTH ≤ (st.fifo ++ a).length →
       drainStep slot minRead mod st a = .error .fullFifo)
  ∧ (∀ (st : ModState) (a : List Word),
       (st.fifo ++ a).length < EXTERNAL_FIFO_LENGTH →
       drainStep slot minRead mod st a ≠ .error .fullFifo)
  ∧ (∀ (slots : Nat → Nat) (mods : List (ModState × List Word)) (e : Fatal),
       drainSpill slots minRead 0 mods = .error e →
       readFIFOEmit slots minRead mods
         = ({ had_error := true, do_stop_acq := true }, none)) := by
  refine ⟨?_, ?_, ?_⟩
  · intro st a hfull
    have hp : fifoPathFor minRead (st.fifo ++ a).length = .fullFatal := by
      unfold fifoPathFor
      rw [if_neg (by omega), if_neg (by omega), if_pos hfull]
    simp only [drainStep, hp]
  · intro st a hlt
    rcases hpath : fifoPathFor minRead (st.fifo ++ a).length with _ | _ | _ | _
    · simp only [drainStep, hpath]
      exact fun hcon => Except.noConfusion hcon
    · simp only [drainStep, hpath]
      exact fun hcon => Except.noConfusion hcon
    · exfalso
      unfold fifoPathFor at hpath
      split at hpath
      · simp at hpath
      · split at hpath
        · simp at hpath
        · split at hpath
          · omega
          · simp at hpath
    · simp only [drainStep, hpath]
      rcases parseEvents slot (st.carry ++ (st.fifo ++ a)) with _ | ⟨p0, ev⟩ | ⟨q, r⟩
      · exact fun hcon => Except.noConfusion hcon
      · exact fun hcon => Except.noConfusion hcon
      · intro hcon
        simp only [Except.error.injEq] at hcon
        exact Fatal.noConfusion hcon
  · intro slots mods e h
    simp only [readFIFOEmit, h]

/-- CLAIM C6. The claimed clean handling of a corrupted payload — truncated
diagnostic, `had_error` and `do_stop_acq` set, cycle aborted before emission
— is not what the code does on a reachable class of corrupt inputs. The
word 2621456 encodes slot 1 (mismatching an expected slot 2) with a declared
event size of 20; in a 9-word module payload (9 is the actual
`MIN_FIFO_READ`) the parse stops at cursor 0 with `had_error`, the offending
event overruns the payload end (20 > 9), and the `size_t` clamp of the
following-event print count underflows to `2^64 - 11`: the diagnostic's
print loop then reads out of bounds far past the `fifoData` allocation, so
the process crashes inside the dump before `do_stop_acq = true` is ever
executed and before the cycle can abort cleanly. -/
theorem c6_following_print_overflow :
    parseEvents 2 [2621456, 0, 0, 0, 0, 0, 0, 0, 0] = .corrupt 0 0
  ∧ ([2621456, 0, 0, 0, 0, 0, 0, 0, 0] : List Word).length
      < 0 + eventSize 2621456
  ∧ (corruptDump [2621456, 0, 0, 0, 0, 0, 0, 0, 0] 0 0).followingCount
      = 2 ^ 64 - 11
  ∧ ([2621456, 0, 0, 0, 0, 0, 0, 0, 0] : List Word).length
      < (corruptDump [2621456, 0, 0, 0, 0, 0, 0, 0, 0] 0 0).followingCount := by
  refine ⟨by decide, by decide, ?_, ?_⟩
  · show usub64 9 20 = 2 ^ 64 - 11
    decide
  · show 9 < usub64 9 20
    decide

/-- CLAIM C8. A negative FIFO word count reported by `CheckFIFOWords` is
stored through the `(unsigned int)` cast as a value of at least `2^31`, which
sails past the `< MIN_FIFO_READ` guard and hits the full-FIFO fatal instead;
the dedicated `nWords[mod] < 0` warning branch is unreachable for every
count, because the stored count is unsigned. This contradicts the intended
"empty record plus warning" handling. -/
theorem c8_negative_count (minRead : Nat) (c : Int)
    (hneg : c < 0) (hrange : -(2 : Int) ^ 31 ≤ c)
    (hmr : minRead ≤ EXTERNAL_FIFO_LENGTH) :
    fifoPathFor minRead (storeFifoCount c) = .fullFatal
  ∧ (∀ count : Nat, fifoPathFor minRead count ≠ .negativeWarn) := by
  constructor
  · have hge : 2 ^ 31 ≤ storeFifoCount c := by
      unfold storeFifoCount
      omega
    unfold fifoPathFor
    rw [if_neg (by simp only [EXTERNAL_FIFO_LENGTH] at hmr; omega),
        if_neg (by omega),
        if_pos (by simp only [EXTERNAL_FIFO_LENGTH]; omega)]
  · intro count
    unfold fifoPathFor
    split
    · simp
    · split
      · omega
      · split
        · simp
        · simp

/-- CLAIM C9. The extracted channel number `chanRead = word & 0xF` lies in
`[0, 15]` for every word, so the channel validity check of the parse loop
can never fail and a channel-range violation is never the reason `had_error`
is set: the combined per-event validation reduces to the slot and size
checks. -/
theorem c9_chan_always_valid :
    ∀ w : Word, chanRead w ≤ 15
  ∧ chanCheckFails w = false
  ∧ ∀ slotExpected : Nat, wordCheckFails slotExpected w
      = (slotCheckFails slotExpected w || sizeCheckFails w) := by
  intro w
  have hle : chanRead w ≤ 15 := Nat.and_le_right
  have hch : chanCheckFails w = false := by
    simp only [chanCheckFails, Bool.or_eq_false_iff, decide_eq_false_iff_not]
    omega
  refine ⟨hle, hch, ?_⟩
  intro slotExpected
  simp only [wordCheckFails, hch, Bool.false_or, Bool.or_false]

/-- CLAIM C10. Calling `OpenOutputFile` while a file is already open does
not open a new file: it closes the current file, sets `had_error`, clears
`record_data`, returns `false`, and leaves the system with no open file,
whatever `OpenNewFile` would have done. -/
theorem c10_open_while_open (openNewFileSucceeds : Bool) (st : OutState)
    (h : st.out_isOpen = true) :
    OpenOutputFile openNewFileSucceeds st
      = ({ file_open := false, out_isOpen := false, had_error := true,
           record_data := false }, false) := by
  simp [OpenOutputFile, CloseOutputFile, h]

/-! Helper lemmas about the argument splitter. -/

/-- Position of the first colon in a list that starts with a colon-free
block. -/
theorem findColon_append {u v : List Char} (hu : ':' ∉ u) :
    findColon (u ++ ':' :: v) = some u.length := by
  induction u with
  | nil => simp [findColon]
  | cons c u' ih =>
    have hc : c ≠ ':' := fun hcc => hu (hcc ▸ List.mem_cons_self c u')
    have hu' : ':' ∉ u' := fun hm => hu (List.mem_cons_of_mem c hm)
    simp [findColon, hc, ih hu']

/-- A colon-free argument has no delimiter. -/
theorem findColon_none {s : List Char} (hs : ':' ∉ s) :
    findColon s = none := by
  induction s with
  | nil => rfl
  | cons c s' ih =>
    have hc : c ≠ ':' := fun hcc => hs (hcc ▸ List.mem_cons_self c s')
    have hs' : ':' ∉ s' := fun hm => hs (List.mem_cons_of_mem c hm)
    simp [findColon, hc, ih hs']

/-- CLAIM C7, counterexample. A single negative argument is accepted: the
negativity check sits only in the branch taken when a `:` delimiter is
present, so `SplitParameterArgs` maps the argument `-5` to
`start = stop = -5` and returns `true`, where the claim requires rejection
of any negative bound. -/
theorem c7_counterexample :
    SplitParameterArgs ['-', '5'] = some (-5, -5) := by decide

/-- CLAIM C7, amended. An argument `a:b` yields `start = a` and `stop = b`
and is rejected exactly when a bound is negative or `start > stop`; a single
numeric argument yields `start = stop` and is accepted even when negative,
because the bounds check is only applied in the delimiter branch. -/
theorem c7_split_parameter_args :
    (∀ (u v : List Char) (a b : Int),
        ':' ∉ u → ((u ++ ':' :: v).all allowedChar) = true →
        stoiOpt u = some a → stoiOpt v = some b →
        SplitParameterArgs (u ++ ':' :: v)
          = (if a < 0 ∨ b < 0 ∨ a > b then none else some (a, b)))
  ∧ (∀ (s : List Char) (a : Int),
        ':' ∉ s → (s.all allowedChar) = true →
        stoiOpt s = some a →
        SplitParameterArgs s = some (a, a)) := by
  constructor
  · intro u v a b hu hall hsu hsv
    have htake : (u ++ ':' :: v).take u.length = u := List.take_left u (':' :: v)
    have hdrop1 : (u ++ ':' :: v).drop u.length = ':' :: v :=
      List.drop_left u (':' :: v)
    have hdrop : (u ++ ':' :: v).drop (u.length + 1) = v := by
      rw [← List.drop_drop, hdrop1]
      rfl
    simp only [SplitParameterArgs, hall, Bool.true_eq_false, if_false,
      findColon_append hu, htake, hdrop, hsu, hsv]
  · intro s a hs hall hsa
    simp only [SplitParameterArgs, hall, Bool.true_eq_false, if_false,
      findColon_none hs, hsa]

/-! Helper lemmas about the chunked broadcast. -/

/-- Shape of the i-th datagram of the broadcast loop: chunk indices count up
from `chunkIdx` and the i-th payload is the i-th block of `maxShmSizeL`
words. -/
theorem sendChunks_getElem (t : Nat) :
    ∀ (c : Nat) (ws : List Word) (i : Nat), i < (sendChunks t c ws).length →
      (sendChunks t c ws)[i]?
        = some { chunkIndex := c + i, totalChunks := t,
                 payload := (ws.drop (maxShmSizeL * i)).take maxShmSizeL } := by
  intro c ws
  induction c, ws using sendChunks.induct t with
  | case1 c ws hempty =>
    intro i h
    rw [sendChunks] at h
    simp [hempty] at h
  | case2 c ws hne hgt ih =>
    intro i h
    rw [sendChunks] at h ⊢
    simp only [if_neg hne, if_pos hgt] at h ⊢
    cases i with
    | zero => simp
    | succ j =>
      have hj : j < (sendChunks t (c + 1) (ws.drop maxShmSizeL)).length := by
        simp only [List.length_cons] at h
        omega
      rw [List.getElem?_cons_succ, ih j hj]
      have harith : maxShmSizeL + maxShmSizeL * j = maxShmSizeL * (j + 1) := by
        ring
      rw [List.drop_drop, harith]
      have hidx : c + 1 + j = c + (j + 1) := by omega
      rw [hidx]
  | case3 c ws hne hle =>
    intro i h
    rw [sendChunks] at h ⊢
    simp only [if_neg hne, if_neg hle] at h ⊢
    simp only [List.length_cons, List.length_nil] at h
    have hi : i = 0 := by omega
    subst hi
    simp only [List.getElem?_cons_zero, Option.some.injEq]
    have : ws.take maxShmSizeL = ws := List.take_of_length_le (by omega)
    simp [this]

/-- Number of datagrams produced by the broadcast loop on a nonempty spill. -/
theorem sendChunks_length (t : Nat) :
    ∀ (c : Nat) (ws : List Word), ws ≠ [] →
      (sendChunks t c ws).length
        = (ws.length + (maxShmSizeL - 1)) / maxShmSizeL := by
  intro c ws
  induction c, ws using sendChunks.induct t with
  | case1 c ws hempty =>
    intro hne
    exact absurd (by simpa using hempty) hne
  | case2 c ws hne' hgt ih =>
    intro _
    rw [sendChunks]
    simp only [if_neg hne', if_pos hgt, List.length_cons]
    have hdr : (ws.drop maxShmSizeL) ≠ [] := by
      have hlen := List.length_drop maxShmSizeL ws
      exact List.ne_nil_of_length_pos (by omega)
    rw [ih hdr]
    simp only [List.length_drop, maxShmSizeL] at hgt ⊢
    omega
  | case3 c ws hne' hle =>
    intro hne
    rw [sendChunks]
    simp only [if_neg hne', if_neg hle, List.length_cons, List.length_nil]
    have hpos : 0 < ws.length := List.length_pos.mpr hne
    simp only [maxShmSizeL] at hle ⊢
    omega

/-- Payload concatenation of the broadcast loop reproduces the spill. -/
theorem sendChunks_flatten (t : Nat) :
    ∀ (c : Nat) (ws : List Word),
      ((sendChunks t c ws).map Datagram.payload).flatten = ws := by
  intro c ws
  induction c, ws using sendChunks.induct t with
  | case1 c ws hempty =>
    have hnil : ws = [] := by simpa using hempty
    subst hnil
    rw [sendChunks]
    simp
  | case2 c ws hne hgt ih =>
    rw [sendChunks]
    simp only [if_neg hne, if_pos hgt, List.map_cons, List.flatten_cons, ih]
    exact List.take_append_drop _ _
  | case3 c ws hne hle =>
    rw [sendChunks]
    simp only [if_neg hne, if_neg hle]
    simp

/-- CLAIM C4. In shm mode, a spill of `n > 0` words is broadcast as exactly
`⌈n / 4050⌉` datagrams; the i-th (0-based) datagram carries chunk index
`i + 1` and the total chunk count; every non-final datagram carries exactly
4050 payload words and the final one carries `n mod 4050` words (or 4050
when the remainder is zero); and the concatenation of the payloads equals
the spill buffer contents. -/
theorem c4_broadcast_chunking (ws : List Word) (hne : ws ≠ []) :
    (broadcast_data ws).length = (ws.length + 4049) / 4050
  ∧ numNetChunks ws.length = (broadcast_data ws).length
  ∧ (∀ i : Nat, i < (broadcast_data ws).length →
      ∃ d : Datagram, (broadcast_data ws)[i]? = some d
        ∧ d.chunkIndex = i + 1
        ∧ d.totalChunks = (broadcast_data ws).length
        ∧ d.payload.length
            = if i + 1 < (broadcast_data ws).length then 4050
              else if ws.length % 4050 = 0 then 4050 else ws.length % 4050)
  ∧ ((broadcast_data ws).map Datagram.payload).flatten = ws := by
  have hlen : (broadcast_data ws).length = (ws.length + 4049) / 4050 := by
    simp only [broadcast_data]
    rw [sendChunks_length (numNetChunks ws.length) 1 ws hne]
    norm_num [maxShmSizeL]
  have hnum : numNetChunks ws.length = (ws.length + 4049) / 4050 := by
    simp only [numNetChunks, maxShmSizeL]
    have hpos : 0 < ws.length := List.length_pos.mpr hne
    split <;> omega
  refine ⟨hlen, by rw [hnum, hlen], ?_, ?_⟩
  · intro i hi
    have hget := sendChunks_getElem (numNetChunks ws.length) 1 ws i
      (by simpa only [broadcast_data] using hi)
    refine ⟨_, by simpa only [broadcast_data] using hget, by simp [Nat.add_comm],
      ?_, ?_⟩
    · exact hnum.trans hlen.symm
    · simp only [List.length_take, List.length_drop, maxShmSizeL]
      rw [hlen] at hi ⊢
      have hpos : 0 < ws.length := List.length_pos.mpr hne
      split
      · omega
      · split <;> omega
  · simp only [broadcast_data]
    exact sendChunks_flatten (numNetChunks ws.length) 1 ws

/-! Concrete witnesses instantiating the theorems above. The word 262179
encodes slot 2, channel 3, event size 2; the word 32 encodes slot 2,
channel 0, event size 0. -/

/-- Witness for C1: a truncated trailing event carried across two drains of
one module; the run-level stream equation at this concrete input. -/
theorem c1_witness :
    ([[4, 0, 262179, 999], [4, 0, 262179, 999]].map fun s => s.drop 2).flatten
        ++ (([] : List Word) ++ ([] : List Word))
      = ((([] : List Word) ++ ([] : List Word)))
        ++ ([[262179, 999, 262179], [999]] : List (List Word)).flatten :=
  (c1_partial_event_carry 2 1 0).2 { fifo := [], carry := [] }
    [[262179, 999, 262179], [999]]
    [[4, 0, 262179, 999], [4, 0, 262179, 999]] { fifo := [], carry := [] }
    (by rfl)

/-- Witness for C2: a two-module spill (one parsed module, one below the
read threshold) whose total length equals the sum of the backfilled
headers. -/
theorem c2_witness :
    ([[4, 0, 262179, 999], [2, 1]] : List (List Word)).flatten.length
      = (([[4, 0, 262179, 999], [2, 1]] : List (List Word)).map List.headI).sum :=
  (c2_spill_word_total (fun _ => 2) 1
    [({ fifo := [], carry := [] }, [262179, 999]),
     ({ fifo := [], carry := [] }, [])]
    [[4, 0, 262179, 999], [2, 1]] (by rfl)).2.1

/-- Witness for C3 (amended): a small write into an open file stays below
the bound. -/
theorem c3_witness :
    ((write_data 0 { isOpen := true, size := 100 } 3).1).size
      ≤ MAX_FILE_SIZE - 65552 :=
  (c3_rollover_bound 0 { isOpen := true, size := 100 } 3 rfl
    (by norm_num [MAX_FILE_SIZE])).2

/-- Witness for C4: payload concatenation of the broadcast of a concrete
spill. -/
theorem c4_witness :
    ((broadcast_data [1, 2, 3]).map Datagram.payload).flatten = [1, 2, 3] :=
  (c4_broadcast_chunking [1, 2, 3] (by decide)).2.2.2

/-- Witness for C5: a module reporting exactly `EXTERNAL_FIFO_LENGTH` words
hits the full-FIFO fatal. -/
theorem c5_witness :
    drainStep 2 9 0 { fifo := List.replicate 131072 0, carry := [] } []
      = .error .fullFifo
  ∧ drainStep 2 9 0 { fifo := List.replicate 16382 0, carry := [] } []
      ≠ .error .fullFifo :=
  ⟨(c5_full_fifo_fatal 2 9 0 (by norm_num [EXTERNAL_FIFO_LENGTH])).1
    { fifo := List.replicate 131072 0, carry := [] } []
    (by rw [List.append_nil, List.length_replicate]
        norm_num [EXTERNAL_FIFO_LENGTH]),
   (c5_full_fifo_fatal 2 9 0 (by norm_num [EXTERNAL_FIFO_LENGTH])).2.1
    { fifo := List.replicate 16382 0, carry := [] } []
    (by rw [List.append_nil, List.length_replicate]
        norm_num [EXTERNAL_FIFO_LENGTH])⟩

/-- Witness for C7 (amended): a single numeric argument is copied into both
bounds. -/
theorem c7_witness : SplitParameterArgs ['7'] = some (7, 7) :=
  c7_split_parameter_args.2 ['7'] 7 (by decide) (by decide) (by decide)

/-- Witness for C8: a reported count of −1 is stored as 4294967295 and takes
the full-FIFO fatal path. -/
theorem c8_witness : fifoPathFor 9 (storeFifoCount (-1)) = .fullFatal :=
  (c8_negative_count 9 (-1) (by decide) (by decide)
    (by norm_num [EXTERNAL_FIFO_LENGTH])).1

/-- Witness for C10: opening on top of an open file closes it and reports
failure. -/
theorem c10_witness :
    OpenOutputFile true
        { file_open := true, out_isOpen := true, had_error := false,
          record_data := true }
      = ({ file_open := false, out_isOpen := false, had_error := true,
           record_data := false }, false) :=
  c10_open_while_open true
    { file_open := true, out_isOpen := true, had_error := false,
      record_data := true } rfl

end Poll
